import Mathlib

/-!
Verification of the Emojicode compiler's call-resolution core and its
package/documentation reporter, as a shallow embedding in Lean.

Sources embedded:
* `src/Compiler/AST/ASTMethod.hpp` — the `BuiltInType` enumeration and the
  declarations of the call-analysis entry points.  The member-function bodies
  (`analyseMethodCall`, `builtIn`, `analyseMultiProtocolCall`, `checkMutation`,
  `ASTMethod::analyse`) are not part of the provided sources, so those are
  modelled from the specification where needed (each such definition carries a
  doc comment saying so).
* `src/EmojicodeCompiler/PackageReporter.cpp` — embedded statement by
  statement.  Every `printf`/`putc` call becomes an emitted output chunk
  (a `String` appended to a `List String`); the concatenation of the chunks is
  the byte stream the C++ writes to stdout.
-/

namespace EmojicodeCompiler

/-- The `BuiltInType` enumeration exactly as declared in
`src/Compiler/AST/ASTMethod.hpp` lines 27–36 (all 35 enumerators, in
declaration order, including the `None` sentinel). -/
inductive BuiltInType where
  | None
  | DoubleMultiply | DoubleAdd | DoubleSubstract | DoubleDivide | DoubleGreater
  | DoubleGreaterOrEqual | DoubleLess | DoubleLessOrEqual | DoubleRemainder | DoubleEqual
  | IntegerMultiply | IntegerAdd | IntegerSubstract | IntegerDivide | IntegerGreater
  | IntegerGreaterOrEqual | IntegerLess | IntegerLessOrEqual | IntegerLeftShift
  | IntegerRightShift | IntegerOr | IntegerAnd | IntegerXor | IntegerRemainder
  | IntegerToDouble | IntegerNot
  | BooleanAnd | BooleanOr | BooleanNegate
  | Equal | Store | Load | IsNoValueLeft | IsNoValueRight
  deriving DecidableEq, Fintype, Repr

/-- The operator categories named by the specification's description of the
built-in catalog: "arithmetic on two numeric kinds, comparisons, boolean
connectives and negation, generic equality, raw store/load, optional-is-absent
tests in left/right position". -/
inductive OpCategory where
  | arithmetic      -- arithmetic (incl. bitwise/shift) on a numeric kind
  | comparison
  | booleanLogic    -- boolean connectives and negation
  | genericEquality
  | storeLoad       -- raw store/load
  | optionalTest    -- optional-is-absent test, left or right position
  deriving DecidableEq, Repr

/-- Assignment of each `BuiltInType` enumerator to the specification's
category list, following the spec's words.  Two enumerators fit none of the
six categories: the `None` sentinel (it marks the absence of a built-in, it
is not an operator) and `IntegerToDouble` (a numeric conversion, which is
neither arithmetic, a comparison, boolean logic, equality, store/load, nor an
optional-presence test). -/
def specCategoryOf : BuiltInType → Option OpCategory
  | .None => none
  | .DoubleMultiply => some .arithmetic
  | .DoubleAdd => some .arithmetic
  | .DoubleSubstract => some .arithmetic
  | .DoubleDivide => some .arithmetic
  | .DoubleRemainder => some .arithmetic
  | .DoubleGreater => some .comparison
  | .DoubleGreaterOrEqual => some .comparison
  | .DoubleLess => some .comparison
  | .DoubleLessOrEqual => some .comparison
  | .DoubleEqual => some .comparison
  | .IntegerMultiply => some .arithmetic
  | .IntegerAdd => some .arithmetic
  | .IntegerSubstract => some .arithmetic
  | .IntegerDivide => some .arithmetic
  | .IntegerRemainder => some .arithmetic
  | .IntegerLeftShift => some .arithmetic
  | .IntegerRightShift => some .arithmetic
  | .IntegerOr => some .arithmetic
  | .IntegerAnd => some .arithmetic
  | .IntegerXor => some .arithmetic
  | .IntegerNot => some .arithmetic
  | .IntegerGreater => some .comparison
  | .IntegerGreaterOrEqual => some .comparison
  | .IntegerLess => some .comparison
  | .IntegerLessOrEqual => some .comparison
  | .IntegerToDouble => none
  | .BooleanAnd => some .booleanLogic
  | .BooleanOr => some .booleanLogic
  | .BooleanNegate => some .booleanLogic
  | .Equal => some .genericEquality
  | .Store => some .storeLoad
  | .Load => some .storeLoad
  | .IsNoValueLeft => some .optionalTest
  | .IsNoValueRight => some .optionalTest

/-- The primitive kinds matched by the built-in catalog: the two numeric
kinds, booleans, and raw memory (for store/load). -/
inductive PrimKind where
  | integer | double | boolean | memory
  deriving DecidableEq, Repr

/-- Tag of a type descriptor (spec §3 TypeDescriptor): primitive kind, class,
value type, enum, protocol, or protocol intersection. -/
inductive TypeTag where
  | primitive (k : PrimKind)
  | classT (name : String)
  | valueT (name : String)
  | enumT (name : String)
  | protocolT (name : String)
  | intersection (members : List String)
  deriving DecidableEq, Repr

/-- A type descriptor: a tag plus the optional flag (spec §3). -/
structure TypeDesc where
  tag : TypeTag
  optional : Bool
  deriving DecidableEq, Repr

/-- A method signature as the resolver sees it (spec §3 MethodSignature):
name, receiver-mutability requirement, parameter types, return type. -/
structure MethodSigM where
  name : String
  mutating : Bool
  params : List TypeDesc
  ret : TypeDesc
  deriving DecidableEq, Repr

/-- The resolution-error kinds relevant to the claims (spec §7). -/
inductive ResolutionError where
  | MethodNotFound
  | AmbiguousProtocolMethod
  | MutationOnImmutableReceiver
  deriving DecidableEq, Repr

/-- The dispatch strategy recorded on success (spec §3 CallResolution). -/
inductive DispatchKind where
  | staticDispatch
  | dynamicDispatch
  | protocolDispatch (proto : String)
  deriving DecidableEq, Repr

/-- The frozen declaration tables (spec §6): per named type a method table,
and for classes a superclass mapping. -/
structure Decls where
  tables : List (String × List MethodSigM)
  superclass : List (String × String)
  deriving Repr

def Decls.tableOf (d : Decls) (t : String) : List MethodSigM :=
  (d.tables.lookup t).getD []

/-- Search a method table for the first signature with the given name. -/
def findSig (methods : List MethodSigM) (name : String) : Option MethodSigM :=
  methods.find? (fun m => m.name == name)

/-- One row of the Built-in Intrinsic Table: operator name, exact receiver
primitive kind, exact argument primitive kinds, and the operation. -/
structure BuiltInEntry where
  name : String
  recv : PrimKind
  args : List PrimKind
  op : BuiltInType
  deriving DecidableEq, Repr

/-- Modelled from the spec: the concrete operator names the compiler maps to
each `BuiltInType` enumerator are not in the provided sources (the table lives
in the body of `ASTMethodable::builtIn`, declared only).  Per spec §3/§4.1 the
table maps (operator-name, receiver primitive kind, argument primitive kinds)
to an operation, with an exact kind match required; names here are chosen
symbolically, one row per non-optional enumerator. -/
def builtInTable : List BuiltInEntry := [
  ⟨"multiply", .double, [.double], .DoubleMultiply⟩,
  ⟨"add", .double, [.double], .DoubleAdd⟩,
  ⟨"subtract", .double, [.double], .DoubleSubstract⟩,
  ⟨"divide", .double, [.double], .DoubleDivide⟩,
  ⟨"greater", .double, [.double], .DoubleGreater⟩,
  ⟨"greaterOrEqual", .double, [.double], .DoubleGreaterOrEqual⟩,
  ⟨"less", .double, [.double], .DoubleLess⟩,
  ⟨"lessOrEqual", .double, [.double], .DoubleLessOrEqual⟩,
  ⟨"remainder", .double, [.double], .DoubleRemainder⟩,
  ⟨"equal", .double, [.double], .DoubleEqual⟩,
  ⟨"multiply", .integer, [.integer], .IntegerMultiply⟩,
  ⟨"add", .integer, [.integer], .IntegerAdd⟩,
  ⟨"subtract", .integer, [.integer], .IntegerSubstract⟩,
  ⟨"divide", .integer, [.integer], .IntegerDivide⟩,
  ⟨"greater", .integer, [.integer], .IntegerGreater⟩,
  ⟨"greaterOrEqual", .integer, [.integer], .IntegerGreaterOrEqual⟩,
  ⟨"less", .integer, [.integer], .IntegerLess⟩,
  ⟨"lessOrEqual", .integer, [.integer], .IntegerLessOrEqual⟩,
  ⟨"leftShift", .integer, [.integer], .IntegerLeftShift⟩,
  ⟨"rightShift", .integer, [.integer], .IntegerRightShift⟩,
  ⟨"bitOr", .integer, [.integer], .IntegerOr⟩,
  ⟨"bitAnd", .integer, [.integer], .IntegerAnd⟩,
  ⟨"bitXor", .integer, [.integer], .IntegerXor⟩,
  ⟨"remainder", .integer, [.integer], .IntegerRemainder⟩,
  ⟨"toDouble", .integer, [], .IntegerToDouble⟩,
  ⟨"bitNot", .integer, [], .IntegerNot⟩,
  ⟨"and", .boolean, [.boolean], .BooleanAnd⟩,
  ⟨"or", .boolean, [.boolean], .BooleanOr⟩,
  ⟨"negate", .boolean, [], .BooleanNegate⟩,
  ⟨"equal", .memory, [.memory], .Equal⟩,
  ⟨"store", .memory, [.integer], .Store⟩,
  ⟨"load", .memory, [.integer], .Load⟩]

/-- The primitive kind of a bare (non-optional) primitive type descriptor,
`none` for anything else. -/
def bareKind (t : TypeDesc) : Option PrimKind :=
  match t.tag, t.optional with
  | .primitive k, false => some k
  | _, _ => none

/-- Modelled from the spec: the body of `ASTMethodable::builtIn` (declared at
`ASTMethod.hpp` line 43) is not in the provided sources.  Per spec §4.1: the
table is consulted only when the receiver's static type is a bare primitive
kind, with an exact primitive-kind match on receiver and every argument; an
optional-wrapped primitive receiver may match only the two optional-presence
intrinsics (`IsNoValueLeft`/`IsNoValueRight`); non-primitive receivers never
match; no error is ever produced (absence of a match is just `none`). -/
def builtIn (t : TypeDesc) (name : String) (args : List TypeDesc) : Option BuiltInType :=
  match t.tag with
  | .primitive k =>
      if t.optional then
        if name == "isNoValueLeft" then some .IsNoValueLeft
        else if name == "isNoValueRight" then some .IsNoValueRight
        else none
      else
        match args.mapM bareKind with
        | some ks =>
            (builtInTable.find? (fun e => e.name == name && e.recv == k && e.args == ks)).map
              (fun e => e.op)
        | none => none
  | _ => none

/-- Modelled from the spec: the body of `ASTMethodable::analyseMultiProtocolCall`
(declared at `ASTMethod.hpp` line 45) is not in the provided sources.  Per spec
§4.2 (ProtocolIntersection): search every member protocol's method table for
the name; exactly one declaring member yields `ProtocolDispatch` tagged with
that member, two or more yield `AmbiguousProtocolMethod`, zero yields
`MethodNotFound`. -/
def analyseMultiProtocolCall (d : Decls) (members : List String) (name : String) :
    Except ResolutionError (MethodSigM × DispatchKind) :=
  match members.filterMap (fun p => (findSig (d.tableOf p) name).map (fun s => (s, p))) with
  | [] => .error .MethodNotFound
  | [(s, p)] => .ok (s, .protocolDispatch p)
  | _ => .error .AmbiguousProtocolMethod

/-- Fuelled superclass-chain walk (spec §4.2, Class receivers): search the
class's own table, then the superclass chain upward until found or the chain
ends. -/
def classSearch (d : Decls) : Nat → String → String → Option MethodSigM
  | 0, _, _ => none
  | fuel + 1, c, name =>
      match findSig (d.tableOf c) name with
      | some s => some s
      | none => (d.superclass.lookup c).bind (fun sup => classSearch d fuel sup name)

/-- Modelled from the spec: the Signature Resolver (§4.2), dispatched on the
receiver tag.  Classes walk the superclass chain and yield `DynamicDispatch`;
value types and enums search only their own table and yield `StaticDispatch`;
a single protocol yields `ProtocolDispatch`; intersections go through
`analyseMultiProtocolCall`; primitive kinds are closed, so their user method
tables are empty and resolution reports `MethodNotFound`. -/
def resolve (d : Decls) (t : TypeDesc) (name : String) :
    Except ResolutionError (MethodSigM × DispatchKind) :=
  match t.tag with
  | .classT c =>
      match classSearch d (d.superclass.length + 1) c name with
      | some s => .ok (s, .dynamicDispatch)
      | none => .error .MethodNotFound
  | .valueT v =>
      match findSig (d.tableOf v) name with
      | some s => .ok (s, .staticDispatch)
      | none => .error .MethodNotFound
  | .enumT e =>
      match findSig (d.tableOf e) name with
      | some s => .ok (s, .staticDispatch)
      | none => .error .MethodNotFound
  | .protocolT p =>
      match findSig (d.tableOf p) name with
      | some s => .ok (s, .protocolDispatch p)
      | none => .error .MethodNotFound
  | .intersection ms => analyseMultiProtocolCall d ms name
  | .primitive _ => .error .MethodNotFound

/-- Modelled from the spec: the body of `ASTMethodable::checkMutation`
(declared at `ASTMethod.hpp` lines 47–48) is not in the provided sources.
Per spec §4.3: a no-op when the resolved signature is not mutating; otherwise
the receiver must denote an addressable, declared-mutable storage location,
and violation is the hard error `MutationOnImmutableReceiver`. -/
def checkMutation (calleeMutableLocation : Bool) (method : MethodSigM) :
    Except ResolutionError Unit :=
  if method.mutating && !calleeMutableLocation then .error .MutationOnImmutableReceiver
  else .ok ()

/-- The analysis state of a call node (spec §4.4 state machine). -/
inductive NodeState where
  | unanalysed
  | builtInMatched (op : BuiltInType)
  | dispatchResolved (sig : MethodSigM) (kind : DispatchKind)
  | failed (e : ResolutionError)
  deriving DecidableEq, Repr

def NodeState.isTerminal : NodeState → Bool
  | .unanalysed => false
  | _ => true

/-- The type of the Signature Resolver component, passed to the call node
(spec §2 lists it as a separate component the node invokes). -/
abbrev Resolver := Decls → TypeDesc → String → Except ResolutionError (MethodSigM × DispatchKind)

/-- The ordinary (non-built-in) phase of call analysis: signature resolution
followed by the mutation-safety check (spec §4.4 steps 3–4). -/
def dispatchPhase (r : Resolver) (d : Decls) (t : TypeDesc) (name : String)
    (calleeMutableLocation : Bool) : NodeState :=
  match r d t name with
  | .error e => .failed e
  | .ok (sig, kind) =>
      match checkMutation calleeMutableLocation sig with
      | .error e => .failed e
      | .ok _ => .dispatchResolved sig kind

/-- Modelled from the spec: the body of `ASTMethodable::analyseMethodCall`
(declared at `ASTMethod.hpp` lines 24–25) is not in the provided sources.
Per spec §4.4/§9: an explicit two-phase decision — first the Built-in
Intrinsic Table; on a match the call short-circuits to `builtInMatched`,
otherwise it falls through to the ordinary dispatch phase. -/
def analyseMethodCall (r : Resolver) (d : Decls) (t : TypeDesc) (name : String)
    (args : List TypeDesc) (calleeMutableLocation : Bool) : NodeState :=
  match builtIn t name args with
  | some op => .builtInMatched op
  | none => dispatchPhase r d t name calleeMutableLocation

/-- A call-expression node (spec §3 CallExpressionNode): call name, checked
receiver type, checked argument types, whether the callee denotes a mutable
storage location, and the recorded analysis state. -/
structure MethodNode where
  name : String
  calleeType : TypeDesc
  argTypes : List TypeDesc
  calleeMutableLocation : Bool
  state : NodeState
  deriving DecidableEq, Repr

/-- Modelled from the spec: the body of `ASTMethod::analyse` (declared at
`ASTMethod.hpp` line 55) is not in the provided sources.  Per spec §4.4 it
runs the fixed two-phase analysis on the node's inputs and records the
resulting terminal state on the node. -/
def ASTMethod.analyse (d : Decls) (n : MethodNode) : MethodNode :=
  { n with state := analyseMethodCall resolve d n.calleeType n.name n.argTypes n.calleeMutableLocation }

/-- Modelled from the spec: `printJSONStringToFile` is called by the reporter
but its definition is not in the provided sources; the spec describes its
output as the JSON-escaped string.  Modelled as standard JSON escaping of
quotes and backslashes inside surrounding quotes.  Escaping of one character. -/
def escChar (c : Char) : List Char :=
  if c = '"' ∨ c = '\\' then ['\\', c] else [c]

/-- The full JSON-escaped rendering of a string: a quote, the escaped body,
a closing quote.  This is the chunk a `printJSONStringToFile` call writes. -/
def jsonEscape (s : String) : String :=
  ⟨'"' :: (s.data.map escChar).flatten ++ ['"']⟩

/-- `reportDocumentation` (PackageReporter.cpp lines 32–40): nothing at all
when the documentation is empty, otherwise the key, the escaped string, and a
trailing comma — one chunk per printf/putc. -/
def reportDocumentation (documentation : String) : List String :=
  if documentation.isEmpty then []
  else ["\"documentation\":", jsonEscape documentation, ","]

/-- The projection of a compiler `Type` that the reporter reads: package name,
rendered name (`toString` under the ambient type context), optional flag, and
(for generic-argument variables) the generic variable index. -/
structure TypeM where
  package : String
  name : String
  optional : Bool
  genericVariableIndex : Nat
  deriving DecidableEq, Repr

/-- `reportType` (PackageReporter.cpp lines 42–46): a single printf. -/
def reportType (t : TypeM) : List String :=
  ["\x7b\"package\":\"" ++ t.package ++ "\",\"name\":\"" ++ t.name ++ "\",\"optional\":" ++
    (if t.optional then "true" else "false") ++ "\x7d"]

/-- `CommaPrinter` (PackageReporter.cpp lines 48–59): emits a comma on every
`print()` call except the first. -/
structure CommaPrinter where
  printedFirst : Bool
  deriving DecidableEq, Repr

/-- `CommaPrinter::print`: the chunks written and the successor state. -/
def CommaPrinter.print (p : CommaPrinter) : List String × CommaPrinter :=
  (if p.printedFirst then [","] else [], ⟨true⟩)

/-- The reporter's ubiquitous loop pattern (e.g. `printFunctions`,
lines 170–176): for each item, call `printer.print()` and then emit the
item's own chunks, threading the `CommaPrinter` state. -/
def printLoop (p : CommaPrinter) : List (List String) → List String
  | [] => []
  | item :: rest =>
      let (out, p') := p.print
      out ++ item ++ printLoop p' rest

/-- A comma-separated sequence printed through a fresh `CommaPrinter`. -/
def printItems (items : List (List String)) : List String :=
  printLoop ⟨false⟩ items

/-- The fill loop of `reportGenericArguments` (lines 65–68): a vector of
`map.size()` empty strings, each map entry's name written at index
`genericVariableIndex() - superCount`.  In C++ the subtraction is on `size_t`
(wrapping) and the write is unchecked, so an index outside
`[superCount, superCount + size)` is an out-of-bounds access — modelled as
`none`. -/
def fillGans (entries : List (String × TypeM)) (superCount size : Nat) : Option (List String) :=
  entries.foldlM
    (fun g e =>
      if superCount ≤ e.2.genericVariableIndex ∧ e.2.genericVariableIndex - superCount < size then
        some (g.set (e.2.genericVariableIndex - superCount) e.1)
      else none)
    (List.replicate size "")

/-- `reportGenericArguments` (lines 61–82): fill the name vector, then print
each slot paired with `constraints[i]`; reading `constraints[i]` for
`i < map.size()` is out of bounds unless `constraints` has at least
`map.size()` entries — modelled as `none`. -/
def reportGenericArguments (map : List (String × TypeM)) (constraints : List TypeM)
    (superCount : Nat) : Option (List String) :=
  match fillGans map superCount map.length with
  | none => none
  | some gans =>
      if map.length ≤ constraints.length then
        some (["\"genericArguments\":["] ++
          printItems (List.zipWith
            (fun gan c =>
              ["\x7b\"name\":", jsonEscape gan, ",\"constraint\":"] ++ reportType c ++ ["\x7d"])
            gans constraints) ++ ["],"])
      else none

/-- `ReturnKind` (PackageReporter.cpp lines 26–30). -/
inductive ReturnKind where
  | Return | NoReturn | ErrorProneInitializer
  deriving DecidableEq, Repr

/-- Access levels as matched by `reportFunction`'s switch. -/
inductive AccessLevel where
  | Private | Protected | Public
  deriving DecidableEq, Repr

/-- The projection of a compiler `Function` that the reporter reads, plus the
`CallResolution`s recorded on the call nodes of its body (held by the function
but never read by the reporter). -/
structure FunctionM where
  name : String
  accessLevel : AccessLevel
  returnType : TypeM
  errorType : TypeM
  errorProne : Bool
  genericArgumentVariables : List (String × TypeM)
  genericArgumentConstraints : List TypeM
  documentation : String
  arguments : List (TypeM × String)
  resolutions : List NodeState
  deriving Repr

/-- The access-level chunk of `reportFunction`'s switch (lines 86–96). -/
def accessChunk : AccessLevel → List String
  | .Private => ["\"access\":\"🔒\","]
  | .Protected => ["\"access\":\"🔐\","]
  | .Public => ["\"access\":\"🔓\","]

/-- The return-type (or error-type) chunks of `reportFunction`'s second
branch (lines 98–107). -/
def returnKindChunks (f : FunctionM) : ReturnKind → List String
  | .Return => ["\"returnType\":"] ++ reportType f.returnType ++ [","]
  | .ErrorProneInitializer => ["\"errorType\":"] ++ reportType f.errorType ++ [","]
  | .NoReturn => []

/-- `reportFunction` (lines 84–123). -/
def reportFunction (f : FunctionM) (returnKind : ReturnKind) : Option (List String) :=
  match reportGenericArguments f.genericArgumentVariables f.genericArgumentConstraints 0 with
  | none => none
  | some gen =>
      some (["\x7b\"name\":\"" ++ f.name ++ "\","] ++ accessChunk f.accessLevel ++
    returnKindChunks f returnKind ++
    gen ++ reportDocumentation f.documentation ++
    ["\"arguments\":["] ++
    printItems (f.arguments.map (fun a =>
      ["\x7b\"type\":"] ++ reportType a.1 ++ [",\"name\":", jsonEscape a.2, "\x7d"])) ++
    ["]\x7d"])

/-- The projection of a `TypeDefinition` that `TypeDefinitionReporter` reads. -/
structure TypeDefM where
  name : String
  protocols : List TypeM
  ownGenericArgumentVariables : List (String × TypeM)
  genericArgumentConstraints : List TypeM
  superGenericCount : Nat
  documentation : String
  methodList : List FunctionM
  initializerList : List FunctionM
  typeMethodList : List FunctionM
  deriving Repr

/-- `TypeDefinitionReporter::printFunctions` (lines 170–176). -/
def printFunctions (functions : List FunctionM) : Option (List String) := do
  let outs ← functions.mapM (fun f => reportFunction f .Return)
  pure (printItems outs)

/-- `TypeDefinitionReporter::reportBasics` (lines 137–168). -/
def reportBasics (t : TypeDefM) : Option (List String) := do
  let gen ← reportGenericArguments t.ownGenericArgumentVariables t.genericArgumentConstraints
    t.superGenericCount
  let methods ← printFunctions t.methodList
  let inits ← t.initializerList.mapM (fun i =>
      reportFunction i (if i.errorProne then .ErrorProneInitializer else .NoReturn))
  let typeMethods ← printFunctions t.typeMethodList
  pure (["\x7b\"name\": \"" ++ t.name ++ "\","] ++
    ["\"conformsTo\":["] ++ printItems (t.protocols.map reportType) ++ ["],"] ++
    gen ++ reportDocumentation t.documentation ++
    ["\"methods\":["] ++ methods ++ ["],"] ++
    ["\"initializers\":["] ++ printItems inits ++ ["],"] ++
    ["\"typeMethods\":["] ++ typeMethods ++ ["]"])

/-- `TypeDefinitionReporter::report` (lines 130–133) for value types and
protocols (no overridden `reportBasics`). -/
def typeDefReport (t : TypeDefM) : Option (List String) := do
  let b ← reportBasics t
  pure (b ++ ["\x7d"])

/-- A class: the shared type-definition data plus the superclass's
(package name, class name), when present (`ClassReporter`, lines 179–190). -/
structure ClassM where
  base : TypeDefM
  superclass : Option (String × String)
  deriving Repr

/-- `ClassReporter::reportBasics` (lines 183–189). -/
def classReportBasics (c : ClassM) : Option (List String) := do
  let b ← reportBasics c.base
  pure (b ++
    (match c.superclass with
     | some (pkg, nm) =>
         [",\"superclass\":\x7b\"package\":\"" ++ pkg ++ "\",\"name\":\"" ++ nm ++ "\"\x7d"]
     | none => []))

/-- `report` for a class. -/
def classReport (c : ClassM) : Option (List String) := do
  let b ← classReportBasics c
  pure (b ++ ["\x7d"])

/-- One enum value as iterated by `EnumReporter` (`it.first` is the printed
name, `it.second.second` the documentation). -/
structure EnumValM where
  name : String
  documentation : String
  deriving DecidableEq, Repr

/-- An enum: the shared type-definition data plus its values
(`EnumReporter`, lines 192–208). -/
structure EnumM where
  base : TypeDefM
  values : List EnumValM
  deriving Repr

/-- `EnumReporter::reportBasics` (lines 196–207). -/
def enumReportBasics (e : EnumM) : Option (List String) := do
  let b ← reportBasics e.base
  pure (b ++ [",\"values\":["] ++
    printItems (e.values.map (fun v =>
      ["\x7b"] ++ reportDocumentation v.documentation ++
      ["\"value\":\"" ++ v.name ++ "\"\x7d"])) ++ ["]"])

/-- `report` for an enum. -/
def enumReport (e : EnumM) : Option (List String) := do
  let b ← enumReportBasics e
  pure (b ++ ["\x7d"])

/-- One exported type of a package, as switched on in `reportPackage`
(lines 216–233); `otherE` is the switch's `default` arm. -/
inductive ExportedM where
  | classE (c : ClassM)
  | enumE (e : EnumM)
  | protocolE (p : TypeDefM)
  | valueTypeE (v : TypeDefM)
  | otherE
  deriving Repr

/-- The projection of a `Package` that `reportPackage` reads. -/
structure PackageM where
  documentation : String
  exported : List ExportedM
  deriving Repr

def exportedClasses (l : List ExportedM) : List ClassM :=
  l.filterMap (fun x => match x with | .classE c => some c | _ => none)

def exportedEnums (l : List ExportedM) : List EnumM :=
  l.filterMap (fun x => match x with | .enumE e => some e | _ => none)

def exportedProtocols (l : List ExportedM) : List TypeDefM :=
  l.filterMap (fun x => match x with | .protocolE p => some p | _ => none)

def exportedValueTypes (l : List ExportedM) : List TypeDefM :=
  l.filterMap (fun x => match x with | .valueTypeE v => some v | _ => none)

/-- `reportPackage` (lines 210–269). -/
def reportPackage (p : PackageM) : Option (List String) := do
  let vts ← (exportedValueTypes p.exported).mapM typeDefReport
  let cls ← (exportedClasses p.exported).mapM classReport
  let ens ← (exportedEnums p.exported).mapM enumReport
  let prs ← (exportedProtocols p.exported).mapM typeDefReport
  pure (["\x7b"] ++ reportDocumentation p.documentation ++
    ["\"valueTypes\":["] ++ printItems vts ++ ["],"] ++
    ["\"classes\":["] ++ printItems cls ++ ["],"] ++
    ["\"enums\": ["] ++ printItems ens ++ ["],"] ++
    ["\"protocols\":["] ++ printItems prs ++ ["]\x7d"])

/-- Rewrite the recorded call resolutions of a function (the reporter never
reads them, which is what claim C5 checks). -/
def FunctionM.mapRes (r : List NodeState → List NodeState) (f : FunctionM) : FunctionM :=
  { f with resolutions := r f.resolutions }

def TypeDefM.mapRes (r : List NodeState → List NodeState) (t : TypeDefM) : TypeDefM :=
  { t with methodList := t.methodList.map (FunctionM.mapRes r),
           initializerList := t.initializerList.map (FunctionM.mapRes r),
           typeMethodList := t.typeMethodList.map (FunctionM.mapRes r) }

def ExportedM.mapRes (r : List NodeState → List NodeState) : ExportedM → ExportedM
  | .classE c => .classE { c with base := c.base.mapRes r }
  | .enumE e => .enumE { e with base := e.base.mapRes r }
  | .protocolE p => .protocolE (p.mapRes r)
  | .valueTypeE v => .valueTypeE (v.mapRes r)
  | .otherE => .otherE

def PackageM.mapRes (r : List NodeState → List NodeState) (p : PackageM) : PackageM :=
  { p with exported := p.exported.map (ExportedM.mapRes r) }

/-! ## Theorems -/

/-- If the receiver's tag is not a primitive kind, the built-in table never
matches. -/
theorem builtIn_none_of_not_primitive (t : TypeDesc) (name : String) (args : List TypeDesc)
    (h : ∀ q, t.tag ≠ .primitive q) : builtIn t name args = none := by
  obtain ⟨tag, opt⟩ := t
  cases tag with
  | primitive k => exact absurd rfl (h k)
  | _ => rfl

/-- C6 counterexample: the implemented enumeration contains the enumerator
`IntegerToDouble`, a numeric conversion, which falls into none of the six
categories the claim lists ("arithmetic on the two numeric kinds, comparisons,
boolean connectives and negation, generic equality, raw store/load,
optional-is-absent tests"); so the claim as stated is false at this variant. -/
theorem builtInCatalog_counterexample :
    (specCategoryOf BuiltInType.IntegerToDouble).isSome = false := by decide

/-- C6 (amended): every enumerator of the implemented `BuiltInType`
enumeration other than the `None` sentinel and the numeric conversion
`IntegerToDouble` falls into one of the spec's six categories, and every
enumerator other than `None` either appears in the intrinsic table with exact
receiver/argument primitive kinds or is one of the two optional-presence
intrinsics. -/
theorem builtInCatalog_closed_amended :
    ∀ v : BuiltInType,
      (v = .None ∨ v = .IntegerToDouble ∨ (specCategoryOf v).isSome = true) ∧
      (v = .None ∨ (∃ e ∈ builtInTable, e.op = v) ∨
        v = .IsNoValueLeft ∨ v = .IsNoValueRight) := by
  decide

/-- C4: resolution is a pure function of the node's receiver type, call name,
argument types and the frozen declarations: re-running `analyse` on an
already-analysed node (declarations unchanged) yields an identical result,
and one run always ends in a terminal state. -/
theorem analyse_idempotent (d : Decls) (n : MethodNode) :
    ASTMethod.analyse d (ASTMethod.analyse d n) = ASTMethod.analyse d n ∧
    (ASTMethod.analyse d n).state.isTerminal = true := by
  refine ⟨rfl, ?_⟩
  show (analyseMethodCall resolve d n.calleeType n.name n.argTypes
    n.calleeMutableLocation).isTerminal = true
  unfold analyseMethodCall dispatchPhase
  split
  · rfl
  · split
    · rfl
    · split <;> rfl

/-- C1: when the receiver's static type and the call's name and argument
kinds match a Built-in Intrinsic Table entry, analysis short-circuits to that
intrinsic and the Signature Resolver is never invoked (the result does not
depend on the resolver at all, so no user-defined method is considered);
when no entry matches, the built-in phase produces no error and analysis
falls through to the ordinary dispatch phase. -/
theorem builtin_shortcircuits (d : Decls) (t : TypeDesc) (name : String)
    (args : List TypeDesc) (mloc : Bool) (r r' : Resolver) :
    (∀ op, builtIn t name args = some op →
      analyseMethodCall r d t name args mloc = .builtInMatched op ∧
      analyseMethodCall r d t name args mloc = analyseMethodCall r' d t name args mloc) ∧
    (builtIn t name args = none →
      analyseMethodCall r d t name args mloc = dispatchPhase r d t name mloc) := by
  constructor
  · intro op h
    constructor <;> simp [analyseMethodCall, h]
  · intro h
    simp [analyseMethodCall, h]

/-- Witness for C1: a bare-integer receiver with name "add" and one bare
integer argument short-circuits to `IntegerAdd` (the spec's §8 scenario);
name "speak" matches no entry and falls through to the dispatch phase. -/
theorem builtin_shortcircuits_witness :
    analyseMethodCall resolve ⟨[], []⟩ ⟨.primitive .integer, false⟩ "add"
      [⟨.primitive .integer, false⟩] true = .builtInMatched .IntegerAdd ∧
    analyseMethodCall resolve ⟨[], []⟩ ⟨.primitive .integer, false⟩ "speak" [] true =
      dispatchPhase resolve ⟨[], []⟩ ⟨.primitive .integer, false⟩ "speak" true :=
  ⟨((builtin_shortcircuits _ _ _ _ _ resolve resolve).1 .IntegerAdd (by rfl)).1,
   (builtin_shortcircuits _ _ _ _ _ resolve resolve).2 (by rfl)⟩

/-- C7: the intrinsic table is consulted only for primitive receivers: a
successful built-in match implies the receiver's tag is a primitive kind, and
for an optional receiver nothing can match except the two optional-presence
intrinsics `IsNoValueLeft` and `IsNoValueRight`. -/
theorem builtin_only_bare_primitive (t : TypeDesc) (name : String) (args : List TypeDesc) :
    ((builtIn t name args).isSome = true → ∃ k, t.tag = .primitive k) ∧
    (t.optional = true →
      builtIn t name args = none ∨ builtIn t name args = some .IsNoValueLeft ∨
      builtIn t name args = some .IsNoValueRight) := by
  obtain ⟨tag, opt⟩ := t
  constructor
  · intro h
    cases tag with
    | primitive k => exact ⟨k, rfl⟩
    | classT c => simp [builtIn] at h
    | valueT v => simp [builtIn] at h
    | enumT e => simp [builtIn] at h
    | protocolT p => simp [builtIn] at h
    | intersection ms => simp [builtIn] at h
  · intro h
    cases h
    cases tag with
    | primitive k =>
        by_cases h1 : name = "isNoValueLeft"
        · subst h1; right; left; rfl
        · by_cases h2 : name = "isNoValueRight"
          · subst h2; right; right; rfl
          · left; simp [builtIn, h1, h2]
    | classT c => left; rfl
    | valueT v => left; rfl
    | enumT e => left; rfl
    | protocolT p => left; rfl
    | intersection ms => left; rfl

/-- Witness for C7: a bare double receiver matching `DoubleAdd` has a
primitive tag, and on an optional integer receiver the "isNoValueLeft" call
lands in the allowed set. -/
theorem builtin_only_bare_primitive_witness :
    (∃ k, (⟨.primitive .double, false⟩ : TypeDesc).tag = .primitive k) ∧
    (builtIn ⟨.primitive .integer, true⟩ "isNoValueLeft" [] = none ∨
     builtIn ⟨.primitive .integer, true⟩ "isNoValueLeft" [] = some .IsNoValueLeft ∨
     builtIn ⟨.primitive .integer, true⟩ "isNoValueLeft" [] = some .IsNoValueRight) :=
  ⟨(builtin_only_bare_primitive ⟨.primitive .double, false⟩ "add"
      [⟨.primitive .double, false⟩]).1 (by rfl),
   (builtin_only_bare_primitive ⟨.primitive .integer, true⟩ "isNoValueLeft" []).2 rfl⟩

/-- C2: on a protocol-intersection receiver, resolution searches every member
protocol's table for the name: exactly one declaring member yields
`ProtocolDispatch` tagged with that member (not the intersection), two or
more declaring members yield the hard error `AmbiguousProtocolMethod`
regardless of the signatures, and zero yield `MethodNotFound`. -/
theorem multiProtocol_resolution (d : Decls) (members : List String) (name : String) :
    (∀ s p,
      members.filterMap (fun q => (findSig (d.tableOf q) name).map (fun m => (m, q))) = [(s, p)] →
      analyseMultiProtocolCall d members name = .ok (s, .protocolDispatch p)) ∧
    (2 ≤ (members.filterMap
        (fun q => (findSig (d.tableOf q) name).map (fun m => (m, q)))).length →
      analyseMultiProtocolCall d members name = .error .AmbiguousProtocolMethod) ∧
    (members.filterMap (fun q => (findSig (d.tableOf q) name).map (fun m => (m, q))) = [] →
      analyseMultiProtocolCall d members name = .error .MethodNotFound) := by
  refine ⟨?_, ?_, ?_⟩
  · intro s p h
    unfold analyseMultiProtocolCall
    rw [h]
  · intro h
    unfold analyseMultiProtocolCall
    rcases hl : members.filterMap (fun q => (findSig (d.tableOf q) name).map (fun m => (m, q)))
      with _ | ⟨⟨s, p⟩, _ | ⟨⟨s2, p2⟩, tl⟩⟩
    · rw [hl] at h; simp at h
    · rw [hl] at h; simp at h
    · rfl
  · intro h
    unfold analyseMultiProtocolCall
    rw [h]

/-- Declarations for the witnesses: protocols "A" and "C" declare a method
"m", protocol "B" declares nothing; value type "V" declares a mutating
method "inc" and a non-mutating method "look". -/
def sigM : MethodSigM := ⟨"m", false, [], ⟨.primitive .integer, false⟩⟩

def sigInc : MethodSigM := ⟨"inc", true, [], ⟨.primitive .integer, false⟩⟩

def sigLook : MethodSigM := ⟨"look", false, [], ⟨.primitive .integer, false⟩⟩

def dEx : Decls := ⟨[("A", [sigM]), ("B", []), ("C", [sigM]), ("V", [sigInc, sigLook])], []⟩

/-- Witness for C2: with members {A, B} only A declares "m" and resolution is
`ProtocolDispatch` tagged A; with {A, C} both declare it and resolution is
`AmbiguousProtocolMethod`; with {B} alone it is `MethodNotFound`. -/
theorem multiProtocol_resolution_witness :
    analyseMultiProtocolCall dEx ["A", "B"] "m" = .ok (sigM, .protocolDispatch "A") ∧
    analyseMultiProtocolCall dEx ["A", "C"] "m" = .error .AmbiguousProtocolMethod ∧
    analyseMultiProtocolCall dEx ["B"] "m" = .error .MethodNotFound :=
  ⟨(multiProtocol_resolution dEx ["A", "B"] "m").1 sigM "A" (by rfl),
   (multiProtocol_resolution dEx ["A", "C"] "m").2.1 (by decide),
   (multiProtocol_resolution dEx ["B"] "m").2.2 (by rfl)⟩

/-- C3: the mutation-safety check is a no-op when the resolved signature has
`mutating == false`; when a resolved signature has `mutating == true` and the
receiver does not denote a mutable storage location it yields the hard error
`MutationOnImmutableReceiver`, and in the full pipeline (for a non-primitive
receiver, which the built-in phase can never intercept) the node then fails
with exactly that error, independent of everything else in the signature. -/
theorem mutation_check (mloc : Bool) (sig : MethodSigM) (d : Decls) (t : TypeDesc)
    (name : String) (args : List TypeDesc) (k : DispatchKind) :
    (sig.mutating = false → checkMutation mloc sig = .ok ()) ∧
    (sig.mutating = true → mloc = false →
      checkMutation mloc sig = .error .MutationOnImmutableReceiver) ∧
    (resolve d t name = .ok (sig, k) → sig.mutating = true → mloc = false →
      (∀ q, t.tag ≠ .primitive q) →
      analyseMethodCall resolve d t name args mloc = .failed .MutationOnImmutableReceiver) := by
  refine ⟨?_, ?_, ?_⟩
  · intro h
    simp [checkMutation, h]
  · intro h hm
    simp [checkMutation, h, hm]
  · intro hres h hm hprim
    have hb := builtIn_none_of_not_primitive t name args hprim
    simp [analyseMethodCall, hb, dispatchPhase, hres, checkMutation, h, hm]

/-- Witness for C3: the non-mutating "look" passes the check on any receiver;
calling the mutating "inc" of value type V on an immutable receiver fails the
whole analysis with `MutationOnImmutableReceiver`. -/
theorem mutation_check_witness :
    checkMutation false sigLook = .ok () ∧
    analyseMethodCall resolve dEx ⟨.valueT "V", false⟩ "inc" [] false =
      .failed .MutationOnImmutableReceiver :=
  ⟨(mutation_check false sigLook dEx ⟨.valueT "V", false⟩ "look" [] .staticDispatch).1 rfl,
   (mutation_check false sigInc dEx ⟨.valueT "V", false⟩ "inc" [] .staticDispatch).2.2
     (by rfl) rfl rfl (by intro q h; cases h)⟩

/-- Once the printer has printed its first item, every further item is
preceded by exactly one comma. -/
theorem printLoop_true (items : List (List String)) :
    printLoop ⟨true⟩ items = (items.map (fun it => "," :: it)).flatten := by
  induction items with
  | nil => rfl
  | cons a rest ih => simp [printLoop, CommaPrinter.print, ih]

theorem printItems_cons (a : List String) (rest : List (List String)) :
    printItems (a :: rest) = a ++ (rest.map (fun it => "," :: it)).flatten := by
  simp [printItems, printLoop, CommaPrinter.print, printLoop_true]

theorem printItems_nil : printItems [] = [] := rfl

/-- Every chunk of a comma-separated sequence is a separator comma or a chunk
of one of the items. -/
theorem mem_printItems (s : String) (items : List (List String)) (h : s ∈ printItems items) :
    s = "," ∨ ∃ it ∈ items, s ∈ it := by
  cases items with
  | nil => simp [printItems, printLoop] at h
  | cons a rest =>
      rw [printItems_cons] at h
      rcases List.mem_append.mp h with h | h
      · exact Or.inr ⟨a, by simp, h⟩
      · rcases List.mem_flatten.mp h with ⟨l, hl, hs⟩
        rcases List.mem_map.mp hl with ⟨it, hit, rfl⟩
        rcases List.mem_cons.mp hs with rfl | hs
        · exact Or.inl rfl
        · exact Or.inr ⟨it, List.mem_cons_of_mem _ hit, hs⟩

theorem count_comma_flatten (items : List (List String)) (h : ∀ it ∈ items, "," ∉ it) :
    ((items.map (fun it => "," :: it)).flatten).count "," = items.length := by
  induction items with
  | nil => rfl
  | cons a rest ih =>
      have ha : a.count "," = 0 := List.count_eq_zero.mpr (h a (by simp))
      have hr := ih (fun it hit => h it (by simp [hit]))
      simp [List.count_append, List.count_cons, ha, hr]

theorem printItems_concat_of_ne_nil (init : List (List String)) (last : List String)
    (h : init ≠ []) : printItems (init ++ [last]) = printItems init ++ ("," :: last) := by
  rcases List.exists_cons_of_ne_nil h with ⟨a, rest, rfl⟩
  rw [List.cons_append, printItems_cons, printItems_cons]
  simp

/-- C9: a fresh `CommaPrinter` printing a sequence of n items emits exactly
n − 1 separating commas (0 when n = 0), with no leading and no trailing
comma, so every JSON array the exporter prints through it is well-formed for
any item count. -/
theorem commaPrinter_separators (items : List (List String))
    (hne : ∀ it ∈ items, it ≠ []) (hcf : ∀ it ∈ items, "," ∉ it) :
    (printItems items).count "," = items.length - 1 ∧
    (∀ s, (printItems items).head? = some s → s ≠ ",") ∧
    (∀ s, (printItems items).getLast? = some s → s ≠ ",") := by
  refine ⟨?_, ?_, ?_⟩
  · cases items with
    | nil => rfl
    | cons a rest =>
        have ha : a.count "," = 0 := List.count_eq_zero.mpr (hcf a (by simp))
        have hr := count_comma_flatten rest (fun it hit => hcf it (by simp [hit]))
        rw [printItems_cons]
        simp [List.count_append, ha, hr]
  · intro s hs
    cases items with
    | nil => simp [printItems_nil] at hs
    | cons a rest =>
        rcases List.exists_cons_of_ne_nil (hne a (by simp)) with ⟨x, xs, rfl⟩
        rw [printItems_cons] at hs
        simp only [List.cons_append, List.head?_cons, Option.some.injEq] at hs
        subst hs
        intro he
        exact hcf (x :: xs) (by simp) (by rw [← he]; exact List.mem_cons_self x xs)
  · intro s hs
    rcases List.eq_nil_or_concat items with rfl | ⟨init, last, rfl⟩
    · simp [printItems_nil] at hs
    · simp only [List.concat_eq_append] at hs hne hcf
      have hlast : last ≠ [] := hne last (by simp)
      cases init with
      | nil =>
          rw [List.nil_append, printItems_cons] at hs
          simp only [List.map_nil, List.flatten_nil, List.append_nil] at hs
          intro he
          exact hcf last (by simp) (by rw [← he]; exact List.mem_of_mem_getLast? hs)
      | cons b rest =>
          rw [printItems_concat_of_ne_nil _ _ (by simp)] at hs
          rw [List.getLast?_append_of_ne_nil _ (by simp)] at hs
          have hcl : ("," :: last).getLast? = last.getLast? := by
            rw [show ("," :: last) = [","] ++ last from rfl,
              List.getLast?_append_of_ne_nil _ hlast]
          rw [hcl] at hs
          intro he
          exact hcf last (by simp) (by rw [← he]; exact List.mem_of_mem_getLast? hs)

/-- Witness for C9: three singleton items produce exactly two separating
commas and no leading comma. -/
theorem commaPrinter_separators_witness :
    (printItems [["x"], ["y"], ["z"]]).count "," = 2 ∧
    (∀ s, (printItems [["x"], ["y"], ["z"]]).head? = some s → s ≠ ",") :=
  ⟨(commaPrinter_separators [["x"], ["y"], ["z"]] (by decide) (by decide)).1,
   (commaPrinter_separators [["x"], ["y"], ["z"]] (by decide) (by decide)).2.1⟩

theorem mem_zipWith {α β γ : Type} (f : α → β → γ) (l1 : List α) (l2 : List β) (c : γ)
    (h : c ∈ List.zipWith f l1 l2) : ∃ a ∈ l1, ∃ b ∈ l2, c = f a b := by
  induction l1 generalizing l2 with
  | nil => simp at h
  | cons x xs ih =>
      cases l2 with
      | nil => simp at h
      | cons y ys =>
          rcases List.mem_cons.mp h with rfl | h
          · exact ⟨x, by simp, y, by simp, rfl⟩
          · rcases ih ys h with ⟨a, ha, b, hb, rfl⟩
            exact ⟨a, by simp [ha], b, by simp [hb], rfl⟩

/-- A string whose first character is not a double quote is not the
"documentation" key chunk. -/
theorem ne_docKey_of_head (s : String) (h : s.data.head? ≠ some '"') :
    s ≠ "\"documentation\":" := by
  intro he; subst he; exact h rfl

/-- A string whose last character is not a colon is not the "documentation"
key chunk. -/
theorem ne_docKey_of_getLast (s : String) (h : s.data.getLast? ≠ some ':') :
    s ≠ "\"documentation\":" := by
  intro he; subst he; exact h rfl

theorem head_append_left (a b : String) (c : Char) (h : a.data.head? = some c) :
    (a ++ b).data.head? = some c := by
  show (a.data ++ b.data).head? = some c
  rw [List.head?_append, h]
  rfl

/-- Every `printJSONStringToFile` chunk ends with a closing double quote. -/
theorem jsonEscape_getLast (s : String) : (jsonEscape s).data.getLast? = some '"' := by
  show ('"' :: ((s.data.map escChar).flatten ++ ['"'])).getLast? = some '"'
  rw [show ('"' :: ((s.data.map escChar).flatten ++ ['"'])) =
    ('"' :: (s.data.map escChar).flatten) ++ ['"'] from rfl]
  exact List.getLast?_concat _

theorem jsonEscape_ne_docKey (s : String) : jsonEscape s ≠ "\"documentation\":" :=
  ne_docKey_of_getLast _ (by rw [jsonEscape_getLast]; decide)

/-- The single chunk printed by `reportType` opens the JSON object brace. -/
theorem head_reportType_chunk (t : TypeM) (s : String) (hs : s ∈ reportType t) :
    s.data.head? = some '\x7b' := by
  have heq := List.mem_singleton.mp hs
  subst heq
  apply head_append_left
  apply head_append_left
  apply head_append_left
  apply head_append_left
  apply head_append_left
  apply head_append_left
  rfl

theorem docKey_not_mem_reportType (t : TypeM) (s : String) (hs : s ∈ reportType t) :
    s ≠ "\"documentation\":" :=
  ne_docKey_of_head s (by rw [head_reportType_chunk t s hs]; decide)

/-- Inversion of `reportGenericArguments`: a successful run is the fixed
bracket chunks around the comma-separated name/constraint items. -/
theorem reportGenericArguments_eq_some (m : List (String × TypeM)) (c : List TypeM)
    (sc : Nat) (out : List String) (h : reportGenericArguments m c sc = some out) :
    ∃ gans, fillGans m sc m.length = some gans ∧ m.length ≤ c.length ∧
      out = ["\"genericArguments\":["] ++
        printItems (List.zipWith
          (fun gan t =>
            ["\x7b\"name\":", jsonEscape gan, ",\"constraint\":"] ++ reportType t ++ ["\x7d"])
          gans c) ++ ["],"] := by
  unfold reportGenericArguments at h
  cases hf : fillGans m sc m.length with
  | none => rw [hf] at h; simp at h
  | some gans =>
      rw [hf] at h
      have h2 : (if m.length ≤ c.length then
          some (["\"genericArguments\":["] ++
            printItems (List.zipWith
              (fun gan t =>
                ["\x7b\"name\":", jsonEscape gan, ",\"constraint\":"] ++ reportType t ++ ["\x7d"])
              gans c) ++ ["],"])
        else none) = some out := h
      by_cases hc : m.length ≤ c.length
      · rw [if_pos hc] at h2
        injection h2 with h3
        exact ⟨gans, rfl, hc, h3.symm⟩
      · rw [if_neg hc] at h2; cases h2

/-- No chunk of one name/constraint item of the generic-argument array is the
"documentation" key. -/
theorem docKey_not_mem_genArgItem (gan : String) (t : TypeM) (s : String)
    (hs : s ∈ ["\x7b\"name\":", jsonEscape gan, ",\"constraint\":"] ++ reportType t ++ ["\x7d"]) :
    s ≠ "\"documentation\":" := by
  rcases List.mem_append.mp hs with hs | hs
  · rcases List.mem_append.mp hs with hs | hs
    · rcases List.mem_cons.mp hs with rfl | hs
      · decide
      · rcases List.mem_cons.mp hs with rfl | hs
        · exact jsonEscape_ne_docKey gan
        · rw [List.mem_singleton.mp hs]; decide
    · exact docKey_not_mem_reportType t s hs
  · rw [List.mem_singleton.mp hs]; decide

theorem docKey_not_mem_reportGenericArguments (m : List (String × TypeM)) (c : List TypeM)
    (sc : Nat) (out : List String) (h : reportGenericArguments m c sc = some out) :
    "\"documentation\":" ∉ out := by
  rcases reportGenericArguments_eq_some m c sc out h with ⟨gans, _, _, rfl⟩
  intro hmem
  rcases List.mem_append.mp hmem with hmem | hmem
  · rcases List.mem_append.mp hmem with hmem | hmem
    · exact absurd (List.mem_singleton.mp hmem) (by decide)
    · rcases mem_printItems _ _ hmem with heq | ⟨it, hit, hin⟩
      · exact absurd heq (by decide)
      · rcases mem_zipWith _ gans c _ hit with ⟨gan, _, t, _, rfl⟩
        exact docKey_not_mem_genArgItem gan t _ hin rfl
  · exact absurd (List.mem_singleton.mp hmem) (by decide)

/-- Inversion of `reportFunction`. -/
theorem reportFunction_eq_some (f : FunctionM) (rk : ReturnKind) (out : List String)
    (h : reportFunction f rk = some out) :
    ∃ gen, reportGenericArguments f.genericArgumentVariables f.genericArgumentConstraints 0 =
        some gen ∧
      out = ["\x7b\"name\":\"" ++ f.name ++ "\","] ++ accessChunk f.accessLevel ++
        returnKindChunks f rk ++
        gen ++ reportDocumentation f.documentation ++
        ["\"arguments\":["] ++
        printItems (f.arguments.map (fun a =>
          ["\x7b\"type\":"] ++ reportType a.1 ++ [",\"name\":", jsonEscape a.2, "\x7d"])) ++
        ["]\x7d"] := by
  unfold reportFunction at h
  cases hg : reportGenericArguments f.genericArgumentVariables f.genericArgumentConstraints 0 with
  | none => rw [hg] at h; cases h
  | some gen =>
      rw [hg] at h
      injection h with h3
      exact ⟨gen, rfl, h3.symm⟩

/-- No chunk of one argument item of the arguments array is the
"documentation" key. -/
theorem docKey_not_mem_argItem (t : TypeM) (nm : String) (s : String)
    (hs : s ∈ ["\x7b\"type\":"] ++ reportType t ++ [",\"name\":", jsonEscape nm, "\x7d"]) :
    s ≠ "\"documentation\":" := by
  rcases List.mem_append.mp hs with hs | hs
  · rcases List.mem_append.mp hs with hs | hs
    · rw [List.mem_singleton.mp hs]; decide
    · exact docKey_not_mem_reportType t s hs
  · rcases List.mem_cons.mp hs with rfl | hs
    · decide
    · rcases List.mem_cons.mp hs with rfl | hs
      · exact jsonEscape_ne_docKey nm
      · rw [List.mem_singleton.mp hs]; decide

theorem docKey_not_mem_reportFunction (f : FunctionM) (rk : ReturnKind) (out : List String)
    (hdoc : f.documentation.isEmpty = true) (h : reportFunction f rk = some out) :
    "\"documentation\":" ∉ out := by
  rcases reportFunction_eq_some f rk out h with ⟨gen, hgen, rfl⟩
  intro hmem
  rcases List.mem_append.mp hmem with hmem | hmem
  · rcases List.mem_append.mp hmem with hmem | hmem
    · rcases List.mem_append.mp hmem with hmem | hmem
      · rcases List.mem_append.mp hmem with hmem | hmem
        · rcases List.mem_append.mp hmem with hmem | hmem
          · rcases List.mem_append.mp hmem with hmem | hmem
            · rcases List.mem_append.mp hmem with hmem | hmem
              · have heq := List.mem_singleton.mp hmem
                refine ne_docKey_of_head _ ?_ heq.symm
                rw [head_append_left ("\x7b\"name\":\"" ++ f.name) "\"," '\x7b'
                  (head_append_left "\x7b\"name\":\"" f.name '\x7b' rfl)]
                decide
              · cases hacc : f.accessLevel <;> rw [hacc] at hmem <;>
                  exact absurd (List.mem_singleton.mp hmem) (by decide)
            · cases rk with
              | Return =>
                  simp only [returnKindChunks] at hmem
                  rcases List.mem_append.mp hmem with hmem | hmem
                  · rcases List.mem_append.mp hmem with hmem | hmem
                    · exact absurd (List.mem_singleton.mp hmem) (by decide)
                    · exact docKey_not_mem_reportType _ _ hmem rfl
                  · exact absurd (List.mem_singleton.mp hmem) (by decide)
              | ErrorProneInitializer =>
                  simp only [returnKindChunks] at hmem
                  rcases List.mem_append.mp hmem with hmem | hmem
                  · rcases List.mem_append.mp hmem with hmem | hmem
                    · exact absurd (List.mem_singleton.mp hmem) (by decide)
                    · exact docKey_not_mem_reportType _ _ hmem rfl
                  · exact absurd (List.mem_singleton.mp hmem) (by decide)
              | NoReturn => simp [returnKindChunks] at hmem
          · exact docKey_not_mem_reportGenericArguments _ _ _ _ hgen hmem
        · rw [reportDocumentation, if_pos hdoc] at hmem
          simp at hmem
      · exact absurd (List.mem_singleton.mp hmem) (by decide)
    · rcases mem_printItems _ _ hmem with heq | ⟨it, hit, hin⟩
      · exact absurd heq (by decide)
      · rcases List.mem_map.mp hit with ⟨a, _, rfl⟩
        exact docKey_not_mem_argItem a.1 a.2 _ hin rfl
  · exact absurd (List.mem_singleton.mp hmem) (by decide)

/-- C10: `reportDocumentation` emits nothing at all when the documentation
string is empty — the "documentation" key is omitted from the enclosing JSON
object (the whole chunk list `reportFunction` emits never contains it) — and
when the string is non-empty it emits the key, the JSON-escaped string, and a
trailing comma. -/
theorem reportDocumentation_key_omission (doc : String) (f : FunctionM) (out : List String) :
    (doc.isEmpty = true → reportDocumentation doc = []) ∧
    (doc.isEmpty = false →
      reportDocumentation doc = ["\"documentation\":", jsonEscape doc, ","]) ∧
    (f.documentation.isEmpty = true → reportFunction f .Return = some out →
      "\"documentation\":" ∉ out) := by
  refine ⟨?_, ?_, ?_⟩
  · intro h; rw [reportDocumentation, if_pos h]
  · intro h; rw [reportDocumentation, if_neg (by simp [h])]
  · intro hdoc h; exact docKey_not_mem_reportFunction f .Return out hdoc h

/-- An example type and an example function (empty documentation, no generics,
no arguments) for the witnesses. -/
def tEx : TypeM := ⟨"pkg", "T", false, 0⟩

def fEx : FunctionM := ⟨"f", .Public, tEx, tEx, false, [], [], "", [], []⟩

def outEx : List String := (reportFunction fEx .Return).getD []

/-- Witness for C10: an empty documentation string emits nothing and the key
is absent from the whole function report; a non-empty one emits key, escaped
string and comma. -/
theorem reportDocumentation_key_omission_witness :
    reportDocumentation "" = [] ∧
    reportDocumentation "hi" = ["\"documentation\":", jsonEscape "hi", ","] ∧
    "\"documentation\":" ∉ outEx :=
  ⟨(reportDocumentation_key_omission "" fEx outEx).1 rfl,
   (reportDocumentation_key_omission "hi" fEx outEx).2.1 rfl,
   (reportDocumentation_key_omission "" fEx outEx).2.2 rfl (by rfl)⟩

theorem reportFunction_mapRes (r : List NodeState → List NodeState) (f : FunctionM)
    (rk : ReturnKind) : reportFunction (f.mapRes r) rk = reportFunction f rk := rfl

theorem mapM_reportFunction_mapRes (r : List NodeState → List NodeState) (rk : ReturnKind)
    (l : List FunctionM) :
    (l.map (FunctionM.mapRes r)).mapM (fun f => reportFunction f rk) =
      l.mapM (fun f => reportFunction f rk) := by
  induction l with
  | nil => rfl
  | cons a l ih =>
      rw [List.map_cons, List.mapM_cons, List.mapM_cons, ih]
      rfl

theorem mapM_reportInit_mapRes (r : List NodeState → List NodeState) (l : List FunctionM) :
    (l.map (FunctionM.mapRes r)).mapM (fun i =>
        reportFunction i (if i.errorProne then .ErrorProneInitializer else .NoReturn)) =
      l.mapM (fun i =>
        reportFunction i (if i.errorProne then .ErrorProneInitializer else .NoReturn)) := by
  induction l with
  | nil => rfl
  | cons a l ih =>
      rw [List.map_cons, List.mapM_cons, List.mapM_cons, ih]
      rfl

theorem printFunctions_mapRes (r : List NodeState → List NodeState) (l : List FunctionM) :
    printFunctions (l.map (FunctionM.mapRes r)) = printFunctions l := by
  unfold printFunctions
  rw [mapM_reportFunction_mapRes]

theorem reportBasics_mapRes (r : List NodeState → List NodeState) (t : TypeDefM) :
    reportBasics (t.mapRes r) = reportBasics t := by
  unfold reportBasics
  simp only [TypeDefM.mapRes]
  rw [printFunctions_mapRes, printFunctions_mapRes, mapM_reportInit_mapRes]

theorem typeDefReport_mapRes (r : List NodeState → List NodeState) (t : TypeDefM) :
    typeDefReport (t.mapRes r) = typeDefReport t := by
  unfold typeDefReport
  rw [reportBasics_mapRes]

def ClassM.mapRes (r : List NodeState → List NodeState) (c : ClassM) : ClassM :=
  { c with base := c.base.mapRes r }

def EnumM.mapRes (r : List NodeState → List NodeState) (e : EnumM) : EnumM :=
  { e with base := e.base.mapRes r }

theorem classReport_mapRes (r : List NodeState → List NodeState) (c : ClassM) :
    classReport (c.mapRes r) = classReport c := by
  unfold classReport classReportBasics
  simp only [ClassM.mapRes]
  rw [reportBasics_mapRes]

theorem enumReport_mapRes (r : List NodeState → List NodeState) (e : EnumM) :
    enumReport (e.mapRes r) = enumReport e := by
  unfold enumReport enumReportBasics
  simp only [EnumM.mapRes]
  rw [reportBasics_mapRes]

theorem exportedValueTypes_mapRes (r : List NodeState → List NodeState) (l : List ExportedM) :
    exportedValueTypes (l.map (ExportedM.mapRes r)) =
      (exportedValueTypes l).map (TypeDefM.mapRes r) := by
  rw [exportedValueTypes, exportedValueTypes, List.filterMap_map, List.map_filterMap]
  apply List.filterMap_congr
  intro x h
  cases x <;> rfl

theorem exportedProtocols_mapRes (r : List NodeState → List NodeState) (l : List ExportedM) :
    exportedProtocols (l.map (ExportedM.mapRes r)) =
      (exportedProtocols l).map (TypeDefM.mapRes r) := by
  rw [exportedProtocols, exportedProtocols, List.filterMap_map, List.map_filterMap]
  apply List.filterMap_congr
  intro x h
  cases x <;> rfl

theorem exportedClasses_mapRes (r : List NodeState → List NodeState) (l : List ExportedM) :
    exportedClasses (l.map (ExportedM.mapRes r)) =
      (exportedClasses l).map (ClassM.mapRes r) := by
  rw [exportedClasses, exportedClasses, List.filterMap_map, List.map_filterMap]
  apply List.filterMap_congr
  intro x h
  cases x <;> rfl

theorem exportedEnums_mapRes (r : List NodeState → List NodeState) (l : List ExportedM) :
    exportedEnums (l.map (ExportedM.mapRes r)) =
      (exportedEnums l).map (EnumM.mapRes r) := by
  rw [exportedEnums, exportedEnums, List.filterMap_map, List.map_filterMap]
  apply List.filterMap_congr
  intro x h
  cases x <;> rfl

theorem mapM_typeDefReport_mapRes (r : List NodeState → List NodeState) (l : List TypeDefM) :
    (l.map (TypeDefM.mapRes r)).mapM typeDefReport = l.mapM typeDefReport := by
  induction l with
  | nil => rfl
  | cons a l ih => rw [List.map_cons, List.mapM_cons, List.mapM_cons, ih, typeDefReport_mapRes]

theorem mapM_classReport_mapRes (r : List NodeState → List NodeState) (l : List ClassM) :
    (l.map (ClassM.mapRes r)).mapM classReport = l.mapM classReport := by
  induction l with
  | nil => rfl
  | cons a l ih => rw [List.map_cons, List.mapM_cons, List.mapM_cons, ih, classReport_mapRes]

theorem mapM_enumReport_mapRes (r : List NodeState → List NodeState) (l : List EnumM) :
    (l.map (EnumM.mapRes r)).mapM enumReport = l.mapM enumReport := by
  induction l with
  | nil => rfl
  | cons a l ih => rw [List.map_cons, List.mapM_cons, List.mapM_cons, ih, enumReport_mapRes]

/-- C5: the documentation/metadata exporter reads only finished declaration
metadata and never a call resolution: rewriting every `CallResolution`
recorded on any function of any exported type of a package (with an arbitrary
function) leaves the entire output of `reportPackage` unchanged, and the
declarations themselves are never written — the exporter's only effect is the
returned chunk list. -/
theorem reportPackage_ignores_resolutions (p : PackageM) (r : List NodeState → List NodeState) :
    reportPackage (p.mapRes r) = reportPackage p := by
  unfold reportPackage
  simp only [PackageM.mapRes, exportedValueTypes_mapRes, exportedClasses_mapRes,
    exportedEnums_mapRes, exportedProtocols_mapRes, mapM_typeDefReport_mapRes,
    mapM_classReport_mapRes, mapM_enumReport_mapRes]

/-- The pure fill loop underlying `fillGans`: the successive `gans[...] = name`
writes, without the bounds bookkeeping. -/
def fillPure (entries : List (String × TypeM)) (superCount : Nat) (g : List String) :
    List String :=
  entries.foldl (fun g e => g.set (e.2.genericVariableIndex - superCount) e.1) g

theorem foldFill_eq (entries : List (String × TypeM)) (sc size : Nat)
    (h : ∀ e ∈ entries, sc ≤ e.2.genericVariableIndex ∧ e.2.genericVariableIndex - sc < size) :
    ∀ g : List String,
      entries.foldlM (fun g e =>
        if sc ≤ e.2.genericVariableIndex ∧ e.2.genericVariableIndex - sc < size then
          some (g.set (e.2.genericVariableIndex - sc) e.1)
        else none) g = some (fillPure entries sc g) := by
  induction entries with
  | nil => intro g; rfl
  | cons a l ih =>
      intro g
      simp only [List.foldlM_cons]
      rw [if_pos (h a (List.mem_cons_self a l))]
      exact ih (fun e he => h e (List.mem_cons_of_mem _ he)) _

/-- When every write lands inside the vector, `fillGans` succeeds and computes
the pure fill. -/
theorem fillGans_eq_fillPure (entries : List (String × TypeM)) (sc size : Nat)
    (h : ∀ e ∈ entries, sc ≤ e.2.genericVariableIndex ∧ e.2.genericVariableIndex - sc < size) :
    fillGans entries sc size = some (fillPure entries sc (List.replicate size "")) :=
  foldFill_eq entries sc size h (List.replicate size "")

theorem fillPure_length (entries : List (String × TypeM)) (sc : Nat) :
    ∀ g : List String, (fillPure entries sc g).length = g.length := by
  induction entries with
  | nil => intro g; rfl
  | cons a l ih =>
      intro g
      have hstep : fillPure (a :: l) sc g =
        fillPure l sc (g.set (a.2.genericVariableIndex - sc) a.1) := rfl
      rw [hstep, ih, List.length_set]

/-- Slots that no entry writes keep their initial content. -/
theorem fillPure_getElem_untouched (entries : List (String × TypeM)) (sc i : Nat) :
    ∀ g : List String, (∀ e ∈ entries, e.2.genericVariableIndex - sc ≠ i) →
      (fillPure entries sc g)[i]? = g[i]? := by
  induction entries with
  | nil => intro g _; rfl
  | cons a l ih =>
      intro g h
      have hstep : fillPure (a :: l) sc g =
        fillPure l sc (g.set (a.2.genericVariableIndex - sc) a.1) := rfl
      rw [hstep, ih _ (fun e he => h e (List.mem_cons_of_mem _ he))]
      exact List.getElem?_set_ne (h a (List.mem_cons_self a l))

/-- With in-range and pairwise-distinct variable indices, the filled vector
holds each entry's name at slot `genericVariableIndex - superCount`. -/
theorem fillPure_getElem (entries : List (String × TypeM)) (sc : Nat) :
    ∀ g : List String,
      (entries.map (fun e => e.2.genericVariableIndex)).Nodup →
      (∀ e ∈ entries, sc ≤ e.2.genericVariableIndex ∧
        e.2.genericVariableIndex - sc < g.length) →
      ∀ e ∈ entries, (fillPure entries sc g)[e.2.genericVariableIndex - sc]? = some e.1 := by
  induction entries with
  | nil => intro g _ _ e he; simp at he
  | cons a l ih =>
      intro g hnd hr e he
      rcases List.mem_cons.mp he with rfl | hel
      · have hside : ∀ e' ∈ l,
            e'.2.genericVariableIndex - sc ≠ e.2.genericVariableIndex - sc := by
          intro e' hel'
          have hnotmem := (List.nodup_cons.mp hnd).1
          have hne : e'.2.genericVariableIndex ≠ e.2.genericVariableIndex := by
            intro hc
            apply hnotmem
            show e.2.genericVariableIndex ∈ List.map (fun e => e.2.genericVariableIndex) l
            rw [← hc]
            exact List.mem_map.mpr ⟨e', hel', rfl⟩
          have h1 := (hr e (List.mem_cons_self e l)).1
          have h2 := (hr e' (List.mem_cons_of_mem _ hel')).1
          omega
        have hstep : fillPure (e :: l) sc g =
          fillPure l sc (g.set (e.2.genericVariableIndex - sc) e.1) := rfl
        rw [hstep, fillPure_getElem_untouched l sc _ _ hside]
        exact List.getElem?_set_eq_of_lt _ (hr e (List.mem_cons_self e l)).2
      · have hstep : fillPure (a :: l) sc g =
          fillPure l sc (g.set (a.2.genericVariableIndex - sc) a.1) := rfl
        rw [hstep]
        apply ih _ (List.nodup_cons.mp hnd).2 _ e hel
        intro e' hel'
        refine ⟨(hr e' (List.mem_cons_of_mem _ hel')).1, ?_⟩
        rw [List.length_set]
        exact (hr e' (List.mem_cons_of_mem _ hel')).2

/-- Reading every slot of a list back in order reproduces the list. -/
theorem map_getD_range (l : List String) :
    (List.range l.length).map (fun i => l.getD i "") = l := by
  apply List.ext_getElem
  · simp
  · intro i h1 h2
    simp [List.getD_eq_getElem?_getD, List.getElem?_eq_getElem h2]

/-- C8 (amended): if every entry's variable index lies in
`[superCount, superCount + map.length)` and `constraints` has at least
`map.length` entries, then `reportGenericArguments` performs no out-of-bounds
access (it succeeds); if additionally the variable indices are pairwise
distinct, the filled name vector holds every map key exactly once, at slot
`genericVariableIndex - superCount` (i.e. ordered by variable index), and is a
permutation of the keys.  Distinctness is needed for the exactly-once
conclusion but not for safety. -/
theorem reportGenericArguments_safety (map : List (String × TypeM)) (constraints : List TypeM)
    (superCount : Nat)
    (hrange : ∀ e ∈ map, superCount ≤ e.2.genericVariableIndex ∧
      e.2.genericVariableIndex - superCount < map.length)
    (hcon : map.length ≤ constraints.length) :
    (reportGenericArguments map constraints superCount).isSome = true ∧
    ((map.map (fun e => e.2.genericVariableIndex)).Nodup →
      ∃ gans, fillGans map superCount map.length = some gans ∧
        gans.length = map.length ∧
        (∀ e ∈ map, gans[e.2.genericVariableIndex - superCount]? = some e.1) ∧
        gans.Perm (map.map Prod.fst)) := by
  have hfill := fillGans_eq_fillPure map superCount map.length hrange
  constructor
  · unfold reportGenericArguments
    simp only [hfill]
    rw [if_pos hcon]
    rfl
  · intro hnd
    have hg0len : (List.replicate map.length "").length = map.length := by
      rw [List.length_replicate]
    have hlen : (fillPure map superCount (List.replicate map.length "")).length = map.length := by
      rw [fillPure_length, hg0len]
    have hget : ∀ e ∈ map,
        (fillPure map superCount
          (List.replicate map.length ""))[e.2.genericVariableIndex - superCount]? = some e.1 := by
      apply fillPure_getElem map superCount _ hnd
      intro e he
      exact ⟨(hrange e he).1, by rw [hg0len]; exact (hrange e he).2⟩
    refine ⟨fillPure map superCount (List.replicate map.length ""), hfill, hlen, hget, ?_⟩
    have hSnd : (map.map (fun e => e.2.genericVariableIndex - superCount)).Nodup := by
      rw [show (fun e : String × TypeM => e.2.genericVariableIndex - superCount) =
        (fun n => n - superCount) ∘ (fun e : String × TypeM => e.2.genericVariableIndex)
        from rfl, ← List.map_map]
      apply List.Nodup.map_on _ hnd
      intro x hx y hy hxy
      rcases List.mem_map.mp hx with ⟨e, he, rfl⟩
      rcases List.mem_map.mp hy with ⟨e', he', rfl⟩
      have h1 := (hrange e he).1
      have h2 := (hrange e' he').1
      omega
    have hSperm : (map.map (fun e => e.2.genericVariableIndex - superCount)).Perm
        (List.range map.length) := by
      have h1 : List.Subperm (map.map (fun e => e.2.genericVariableIndex - superCount))
          (List.range map.length) := by
        apply hSnd.subperm
        intro s hs
        rcases List.mem_map.mp hs with ⟨e, he, rfl⟩
        exact List.mem_range.mpr (hrange e he).2
      exact h1.perm_of_length_le (by simp)
    have hmapfst : map.map Prod.fst =
        (map.map (fun e => e.2.genericVariableIndex - superCount)).map
          (fun i => (fillPure map superCount (List.replicate map.length "")).getD i "") := by
      rw [List.map_map]
      apply List.map_eq_map_iff.mpr
      intro e he
      have hg := hget e he
      simp [Function.comp, List.getD_eq_getElem?_getD, hg]
    have hrangemap := map_getD_range (fillPure map superCount (List.replicate map.length ""))
    rw [hlen] at hrangemap
    rw [hmapfst]
    have hperm := hSperm.map
      (fun i => (fillPure map superCount (List.replicate map.length "")).getD i "")
    rw [hrangemap] at hperm
    exact hperm.symm

/-- Example data for the C8 witness: two generic parameters with distinct
in-range variable indices 2 and 1 above a super count of 1. -/
def map₁ : List (String × TypeM) := [("B", ⟨"p", "T", false, 2⟩), ("A", ⟨"p", "T", false, 1⟩)]

def constraints₁ : List TypeM := [⟨"p", "T", false, 0⟩, ⟨"p", "T", false, 0⟩]

/-- Witness for C8: on the example, the report succeeds and the filled vector
lists the names ordered by variable index. -/
theorem reportGenericArguments_safety_witness :
    (reportGenericArguments map₁ constraints₁ 1).isSome = true ∧
    (∃ gans, fillGans map₁ 1 map₁.length = some gans ∧
      gans.length = map₁.length ∧
      (∀ e ∈ map₁, gans[e.2.genericVariableIndex - 1]? = some e.1) ∧
      gans.Perm (map₁.map Prod.fst)) :=
  ⟨(reportGenericArguments_safety map₁ constraints₁ 1 (by decide) (by decide)).1,
   (reportGenericArguments_safety map₁ constraints₁ 1 (by decide) (by decide)).2 (by decide)⟩

/-- The precondition named by claim C8: every variable index in
`[superCount, superCount + map.length)`, all indices distinct, and at least
`map.length` constraints. -/
def genericReportPrecondition (map : List (String × TypeM)) (constraints : List TypeM)
    (superCount : Nat) : Prop :=
  (∀ e ∈ map, superCount ≤ e.2.genericVariableIndex ∧
    e.2.genericVariableIndex - superCount < map.length) ∧
  (map.map (fun e => e.2.genericVariableIndex)).Nodup ∧
  map.length ≤ constraints.length

/-- Example data violating only the distinctness part of C8's precondition:
two entries with the same variable index 0. -/
def mapDup : List (String × TypeM) := [("A", ⟨"p", "T", false, 0⟩), ("B", ⟨"p", "T", false, 0⟩)]

def constraintsDup : List TypeM := [⟨"p", "T", false, 0⟩, ⟨"p", "T", false, 0⟩]

/-- C8 counterexample: the claim says the function "is safe (no out-of-bounds
access) only under the precondition" — but with two in-range *duplicate*
variable indices the precondition fails while every access stays in bounds
(the later write merely clobbers the earlier one), so safety does not require
the distinctness part of the precondition. -/
theorem reportGenericArguments_precondition_counterexample :
    (reportGenericArguments mapDup constraintsDup 0).isSome = true ∧
    ¬ genericReportPrecondition mapDup constraintsDup 0 := by
  constructor
  · rfl
  · intro h
    exact absurd h.2.1 (by decide)

end EmojicodeCompiler
